import Mathlib

/-!
# DataFilters — a verification development

Shallow embedding of `src/js/components/DataFilters/DataFilters.js`.

The component is a pure function of its props, the `DataContext` values it
reads and its two pieces of local state (`showContent`, `touched`).  The
JavaScript values it inspects are embedded as `JSVal`; the JavaScript
operators it applies to them (`typeof`, truthiness, `&&`, `||`, `!`,
`Object.keys`, member access, `?.`, object spread) are embedded one by one
and the component body is then transcribed line by line.

Conventions of the embedding:
* numbers are integers plus `NaN` (the component only observes whether a
  number is zero or `NaN`, and produces `length`s);
* strings are Lean strings, read as sequences of UTF-16 code units
  (characters outside the Basic Multilingual Plane are outside the model);
* an object is the list of its own enumerable string-keyed data properties,
  in the order `Object.keys` reports them;
* the prototype chain is followed for exactly the member names the component
  reads: `length`, `filter` and `sort`;
* a `TypeError` raised by the engine is an `Except.error`.
-/

namespace Grommet

/-! ## JavaScript values -/

/-- JavaScript values inspected by the component. -/
inductive JSVal where
  | undefined
  | null
  | bool (b : Bool)
  | num (n : Int)
  | nan
  | str (s : String)
  | arr (items : List JSVal)
  | obj (props : List (String × JSVal))
  | func (arity : Nat)

/-- Own enumerable data properties of a plain object, in key order. -/
abbrev JSObj := List (String × JSVal)

/-- Errors the engine can raise while evaluating the component body. -/
inductive JSError where
  | typeError
  deriving DecidableEq, Repr

/-- Result of the `typeof` operator. -/
def typeOf : JSVal → String
  | .undefined => "undefined"
  | .null => "object"
  | .bool _ => "boolean"
  | .num _ => "number"
  | .nan => "number"
  | .str _ => "string"
  | .arr _ => "object"
  | .obj _ => "object"
  | .func _ => "function"

/-- Truthiness (`ToBoolean`). -/
def truthy : JSVal → Bool
  | .undefined => false
  | .null => false
  | .bool b => b
  | .num n => n != 0
  | .nan => false
  | .str s => s != ""
  | .arr _ => true
  | .obj _ => true
  | .func _ => true

/-- The `&&` operator on values. -/
def jsAnd (a b : JSVal) : JSVal := if truthy a then b else a

/-- The `||` operator on values. -/
def jsOr (a b : JSVal) : JSVal := if truthy a then a else b

/-- The `!` operator. -/
def jsNot (a : JSVal) : JSVal := .bool (!truthy a)

/-- The test `v === false`. -/
def strictEqFalse : JSVal → Bool
  | .bool false => true
  | _ => false

/-- The test `Array.isArray(v)`. -/
def isArray : JSVal → Bool
  | .arr _ => true
  | _ => false

/-- Value of a run of decimal digits, `none` when a character is not a digit. -/
def digitsValue : List Char → Nat → Option Nat
  | [], acc => some acc
  | c :: cs, acc =>
    if 48 ≤ c.toNat ∧ c.toNat ≤ 57 then digitsValue cs (10 * acc + (c.toNat - 48))
    else none

/-- Array index denoted by a property key: the key must be the canonical
decimal form of an integer below `2^32 - 1`. -/
def arrayIndex? (k : String) : Option Nat :=
  match k.data with
  | [] => none
  | [c] => digitsValue [c] 0
  | c :: cs =>
    if c = '0' then none
    else
      match digitsValue (c :: cs) 0 with
      | some n => if n < 4294967295 then some n else none
      | none => none

/-- Keys reported by `Object.keys(v)`; `undefined` and `null` raise. -/
def objectKeys : JSVal → Except JSError (List String)
  | .undefined => .error .typeError
  | .null => .error .typeError
  | .bool _ => .ok []
  | .num _ => .ok []
  | .nan => .ok []
  | .str s => .ok ((List.range s.length).map toString)
  | .arr items => .ok ((List.range items.length).map toString)
  | .obj props => .ok (props.map Prod.fst)
  | .func _ => .ok []

/-- Own property read on a plain object: the value, or `undefined`. -/
def JSObj.get (o : JSObj) (k : String) : JSVal :=
  match o.lookup k with
  | some v => v
  | none => .undefined

/-- Member read `v[k]` / `v.k` on a value that is neither `undefined` nor
`null`; the component only reads members of such values, after a truthiness
test, a successful `Object.keys` or through `?.`. -/
def memberOf : JSVal → String → JSVal
  | .obj props, k => JSObj.get props k
  | .arr items, k =>
    match arrayIndex? k with
    | some i => (items.get? i).getD .undefined
    | none =>
      if k = "length" then .num items.length
      else if k = "filter" then .func 1
      else if k = "sort" then .func 1
      else .undefined
  | .str s, k =>
    match arrayIndex? k with
    | some i =>
      match s.data.get? i with
      | some c => .str (String.singleton c)
      | none => .undefined
    | none => if k = "length" then .num s.length else .undefined
  | .func arity, k => if k = "length" then .num arity else .undefined
  | _, _ => .undefined

/-- Optional member read `v?.k`. -/
def optMember (v : JSVal) (k : String) : JSVal :=
  match v with
  | .undefined => .undefined
  | .null => .undefined
  | _ => memberOf v k

/-- Keys of a plain object, as `Object.keys` reports them. -/
def JSObj.keys (o : JSObj) : List String := o.map Prod.fst

/-- Whether key `k` is listed before key `k2` by the engine irrespective of
creation order: array indices come first, in ascending numeric order. -/
def keyBefore (k k2 : String) : Bool :=
  match arrayIndex? k, arrayIndex? k2 with
  | some i, some j => i < j
  | some _, none => true
  | none, _ => false

/-- Definition of the data property `k` with value `v` on a plain object: an
existing property keeps its place, a new one is listed in key order. -/
def setProp : JSObj → String → JSVal → JSObj
  | [], k, v => [(k, v)]
  | (k2, v2) :: rest, k, v =>
    if k2 = k then (k, v) :: rest
    else if keyBefore k k2 then (k, v) :: (k2, v2) :: rest
    else (k2, v2) :: setProp rest k v

/-- Object spread `...source` inside an object literal under construction:
every own key of `source` is read and defined on `target`, in key order. -/
def spreadInto (target source : JSObj) : JSObj :=
  source.keys.foldl (fun t k => setProp t k (source.get k)) target

/-! ## The component -/

/-- Rendered children of the inner form. -/
inductive Element where
  /-- The element `<DataFilter key={property} property={property} />`. -/
  | dataFilter (key property : JSVal)
  /-- The element `<DataSort key="_sort" />`. -/
  | dataSort (key : String)
  /-- A child node supplied by the caller. -/
  | child (n : Nat)

/-- Whether an element is a `DataSort`. -/
def Element.isSort : Element → Bool
  | .dataSort _ => true
  | _ => false

/-- Whether an element is a `DataFilter`. -/
def Element.isFilter : Element → Bool
  | .dataFilter _ _ => true
  | _ => false

/-- Props of the component (`updateOn` and `...rest` are only forwarded). -/
structure Props where
  drop : JSVal
  children : List Element
  clearFilters : JSVal
  heading : JSVal
  layer : JSVal

/-- Values read from `DataContext`. -/
structure Context where
  properties : JSVal
  unfilteredData : JSVal
  filtersCleared : JSVal
  view : JSVal

/-- Local state: `useState()` and `useState(defaultTouched)`. -/
structure State where
  showContent : JSVal
  touched : JSObj

/-- The constant `defaultTouched = {}`. -/
def defaultTouched : JSObj := []

/-- State at mount. -/
def State.initial : State := { showContent := .undefined, touched := defaultTouched }

/-- Destructuring default `clearFilters = true`. -/
def clearFiltersOf (p : Props) : JSVal :=
  match p.clearFilters with
  | .undefined => .bool true
  | v => v

/-- First effect: the argument of `setFiltersCleared`,
`!Object.keys(touched).length`. -/
def filtersClearedPush (touched : JSObj) : JSVal :=
  jsNot (.num touched.keys.length)

/-- Second effect: `if (filtersCleared) setTouched(defaultTouched)`; the
touched map after the effect. -/
def resetOnCleared (filtersCleared : JSVal) (touched : JSObj) : JSObj :=
  if truthy filtersCleared then defaultTouched else touched

/-- The memo `controlled = drop || layer`. -/
def controlled (drop layer : JSVal) : JSVal := jsOr drop layer

/-- The memo `badge`:
`(controlled && Object.keys(touched).filter((k) => touched[k]).length) || undefined`. -/
def badge (controlled : JSVal) (touched : JSObj) : JSVal :=
  jsOr
    (jsAnd controlled
      (.num (touched.keys.filter (fun k => truthy (touched.get k))).length))
    .undefined

/-- The list `filtersFor` computed when the caller gives no children. -/
def filtersFor (properties unfilteredData : JSVal) : Except JSError (List JSVal) :=
  if truthy (jsAnd (jsAnd (jsNot properties) unfilteredData)
      (memberOf unfilteredData "length")) then do
    -- build from a piece of data, ignore object values
    let first := memberOf unfilteredData "0"
    let keys ← objectKeys first
    pure ((keys.filter (fun k => typeOf (memberOf first k) != "object")).map .str)
  else if isArray properties then
    match properties with
    | .arr items => pure items
    | _ => pure []
  else if typeOf properties == "object" then do
    let keys ← objectKeys properties
    pure ((keys.filter (fun property =>
      !(strictEqFalse (optMember (memberOf properties property) "filter")))).map .str)
  else pure []

/-- The variable `content` before it is wrapped in the form: the children
given by the caller or, when `Children.count(children) === 0`, one
`DataFilter` per entry of `filtersFor`, then a `DataSort` pushed when
`view?.sort`. -/
def content (children : List Element) (properties unfilteredData view : JSVal) :
    Except JSError (List Element) :=
  if children.length = 0 then do
    let fs ← filtersFor properties unfilteredData
    let c := fs.map (fun property => Element.dataFilter property property)
    if truthy (optMember view "sort") then pure (c ++ [Element.dataSort "_sort"])
    else pure c
  else pure children

/-- The `onTouched` prop handed to the form: a handler merging
`currentTouched` into the previous map when controlled, `undefined`
otherwise. -/
def onTouched (controlled : JSVal) : Option (JSObj → JSObj → JSObj) :=
  if truthy controlled then
    some (fun currentTouched prevTouched =>
      spreadInto (spreadInto [] prevTouched) currentTouched)
  else none

/-- A child position of JSX holding either an element or a plain value
(`cond && <X />` evaluates to `cond` when `cond` is falsy). -/
inductive Slot (α : Type) where
  | value (v : JSVal)
  | element (e : α)

/-- Whether a slot holds an element. -/
def Slot.isElement {α : Type} : Slot α → Bool
  | .element _ => true
  | .value _ => false

/-- The expression `a && b` where `b` is element-valued. -/
def andSlot {α : Type} (a : JSVal) (b : Slot α) : Slot α :=
  if truthy a then b else .value a

/-- The `Box` wrapping `DataClearFilters`. -/
structure ClearBox where
  deriving DecidableEq

/-- The `Header` of panel mode: a heading, the slot
`{!controlled && clearControl}` and the close button. -/
structure HeaderView where
  clearControl : Slot ClearBox

/-- The `DataForm` element built around the content. -/
structure FormView where
  /-- Whether the `onTouched` prop is a handler. -/
  touchable : Bool
  /-- The slot `{layer && <Header>…</Header>}`. -/
  header : Slot HeaderView
  content : List Element

/-- The trigger control. -/
inductive Control where
  | dropButton (badge showContent : JSVal) (dropContent : FormView)
  | button (badge : JSVal)

/-- What the component returns. -/
inductive Rendered where
  /-- Inline: the form itself (`if (!controlled) return content`). -/
  | inline (form : FormView)
  /-- Controlled: a `Box` with the control, the clear control and the slot
  `{layer && showContent && <Layer>…</Layer>}`. -/
  | box (control : Option Control) (clearControl : Slot ClearBox) (layer : Slot FormView)

/-- The constant `clearControl = badge && clearFilters && <Box>…</Box>`. -/
def clearControl (badge clearFilters : JSVal) : Slot ClearBox :=
  andSlot (jsAnd badge clearFilters) (.element {})

/-- The `DataForm` element (`content = <DataForm …>…</DataForm>`). -/
def dataForm (p : Props) (touched : JSObj) (content : List Element) : FormView :=
  let ctl := controlled p.drop p.layer
  let cc := clearControl (badge ctl touched) (clearFiltersOf p)
  { touchable := (onTouched ctl).isSome
    header := andSlot p.layer (.element { clearControl := andSlot (jsNot ctl) cc })
    content := content }

/-- Rendering once the content is known. -/
def render (p : Props) (s : State) (content : List Element) : Rendered :=
  let ctl := controlled p.drop p.layer
  let b := badge ctl s.touched
  let form := dataForm p s.touched content
  if !truthy ctl then .inline form
  else
    let control :=
      if truthy p.drop then some (Control.dropButton b s.showContent form)
      else if truthy p.layer then some (Control.button b)
      else none
    .box control (clearControl b (clearFiltersOf p))
      (andSlot (jsAnd p.layer s.showContent) (.element form))

/-- The component: derive the content, then render. -/
def DataFilters (p : Props) (c : Context) (s : State) : Except JSError Rendered := do
  let cs ← content p.children c.properties c.unfilteredData c.view
  pure (render p s cs)

/-! ## Interactions -/

/-- Callbacks the component hands to the elements it renders. -/
inductive Event where
  /-- Callback `onDone` of the `DataForm`: `setShowContent(false)`. -/
  | formDone
  /-- Callback `onTouched` of the `DataForm`, with the changed fields. -/
  | formTouched (currentTouched : JSObj)
  /-- Close button of the header: `setShowContent(undefined)`. -/
  | headerClose
  /-- Callback `onOpen` of the `DropButton`: `setShowContent(undefined)`. -/
  | dropOpen
  /-- Callback `onClose` of the `DropButton`: `setShowContent(undefined)`. -/
  | dropClose
  /-- Panel trigger `Button` `onClick`: `setShowContent(true)`. -/
  | triggerClick
  /-- Callback `onClickOutside` of the `Layer`: `setShowContent(undefined)`. -/
  | layerClickOutside
  /-- Callback `onEsc` of the `Layer`: `setShowContent(undefined)`. -/
  | layerEsc

/-- Whether a form element carries the callback of an event. -/
def FormView.offers (f : FormView) : Event → Bool
  | .formDone => true
  | .formTouched _ => f.touchable
  | .headerClose => f.header.isElement
  | _ => false

/-- Whether the rendered tree carries the callback of an event. -/
def Rendered.offers : Rendered → Event → Bool
  | .inline form, e => form.offers e
  | .box control _ layer, e =>
    (match control, e with
      | some (.dropButton _ _ _), .dropOpen => true
      | some (.dropButton _ _ _), .dropClose => true
      | some (.dropButton _ _ dropContent), e => dropContent.offers e
      | some (.button _), .triggerClick => true
      | _, _ => false) ||
    (match layer, e with
      | .element _, .layerClickOutside => true
      | .element _, .layerEsc => true
      | .element form, e => form.offers e
      | .value _, _ => false)

/-- State after the callback of an event has run. -/
def Event.apply (p : Props) (s : State) : Event → State
  | .formDone => { s with showContent := .bool false }
  | .formTouched currentTouched =>
    match onTouched (controlled p.drop p.layer) with
    | some handler => { s with touched := handler currentTouched s.touched }
    | none => s
  | .headerClose => { s with showContent := .undefined }
  | .dropOpen => { s with showContent := .undefined }
  | .dropClose => { s with showContent := .undefined }
  | .triggerClick => { s with showContent := .bool true }
  | .layerClickOutside => { s with showContent := .undefined }
  | .layerEsc => { s with showContent := .undefined }

/-- States the component reaches from mount, under fixed props, by callbacks
carried by what it rendered and by the reset effect. -/
inductive Reachable (p : Props) : State → Prop where
  | mount : Reachable p State.initial
  | event (s : State) (cs : List Element) (e : Event) :
      Reachable p s → (render p s cs).offers e = true → Reachable p (e.apply p s)
  | cleared (s : State) (filtersCleared : JSVal) :
      Reachable p s →
      Reachable p { s with touched := resetOnCleared filtersCleared s.touched }

/-- The touched map after a sequence of `onTouched` calls, oldest first; a
widget without handler keeps its map. -/
def touchAll (controlled : JSVal) (touched : JSObj) (calls : List JSObj) : JSObj :=
  match onTouched controlled with
  | some handler => calls.foldl (fun prevTouched cur => handler cur prevTouched) touched
  | none => touched

/-- Right-biased union of `init` and `calls`, key by key: the binding of
`k` in the last map of `calls` that binds it, else its binding in `init`. -/
def lastBinding (init : JSObj) (calls : List JSObj) (k : String) : Option JSVal :=
  match calls.reverse.find? (fun c => (c.lookup k).isSome) with
  | some c => c.lookup k
  | none => init.lookup k

/-- Number of keys of a map whose value is truthy, counted on its entries. -/
def truthyCount (touched : JSObj) : Nat :=
  (touched.filter (fun kv => truthy kv.2)).length

/-- Scalars as the specification lists them: number, string, boolean, null
or undefined. -/
def listedScalar : JSVal → Bool
  | .undefined => true
  | .null => true
  | .bool _ => true
  | .num _ => true
  | .nan => true
  | .str _ => true
  | _ => false

/-- Values whose `typeof` is not `'object'`: everything but null, arrays and
plain objects. -/
def notTypeofObject : JSVal → Bool
  | .null => false
  | .arr _ => false
  | .obj _ => false
  | _ => true

/-- Keys of a record, in key order, whose value satisfies `keep`. -/
def keysWhere (record : JSObj) (keep : JSVal → Bool) : List JSVal :=
  (record.keys.filter (fun k => keep (record.get k))).map .str

/-- A per-field config that has `filter === false`: an object whose own
`filter` property is the boolean `false`. -/
def disablesFilter : JSVal → Bool
  | .obj config =>
    match config.lookup "filter" with
    | some (.bool false) => true
    | _ => false
  | _ => false

/-- The filter editor rendered for a target field, keyed by the field. -/
def editorFor (property : JSVal) : Element := .dataFilter property property

/-- The sort entry, with its fixed key. -/
def sortEntry : Element := .dataSort "_sort"

/-- Whether the view configuration has sorting enabled (`view?.sort`). -/
def sortEnabled (view : JSVal) : Bool := truthy (optMember view "sort")

/-- Whether the rendered tree is the dropdown shape alone: the trigger is the
`DropButton`, no `Layer` is rendered and the form holds no panel header. -/
def Rendered.onlyDropdownShape : Rendered → Bool
  | .box (some (.dropButton _ _ dropContent)) _ layer =>
    !layer.isElement && !dropContent.header.isElement
  | _ => false

/-- Whether the header of a form holds the clear-filters control. -/
def FormView.headerHasClear (f : FormView) : Bool :=
  match f.header with
  | .element h => h.clearControl.isElement
  | .value _ => false

/-- A badge showing a positive count. -/
def positiveBadge (b : JSVal) : Prop := ∃ n : Nat, 0 < n ∧ b = .num n

/-- Props giving both `drop` and `layer`. -/
def dropAndLayer : Props :=
  { drop := .bool true, children := [], clearFilters := .undefined,
    heading := .undefined, layer := .bool true }

/-- Props giving `layer` alone. -/
def layerOnly : Props :=
  { drop := .undefined, children := [], clearFilters := .undefined,
    heading := .undefined, layer := .bool true }

/-- Key order of an object: keys are distinct and no key is listed after a
key it comes before. -/
def KeyOrdered (o : JSObj) : Prop :=
  o.Pairwise (fun a b => a.1 ≠ b.1 ∧ keyBefore b.1 a.1 = false)

/-! ## Operators -/

@[simp]
theorem truthy_undefined : truthy .undefined = false := rfl
@[simp]
theorem truthy_null : truthy .null = false := rfl
@[simp]
theorem truthy_bool (b : Bool) : truthy (.bool b) = b := rfl
@[simp]
theorem truthy_arr (items : List JSVal) : truthy (.arr items) = true := rfl
@[simp]
theorem truthy_obj (props : List (String × JSVal)) : truthy (.obj props) = true := rfl
@[simp]
theorem truthy_func (arity : Nat) : truthy (.func arity) = true := rfl

@[simp]
theorem truthy_jsNot (a : JSVal) : truthy (jsNot a) = !truthy a := rfl

@[simp]
theorem truthy_jsAnd (a b : JSVal) :
    truthy (jsAnd a b) = (truthy a && truthy b) := by
  unfold jsAnd
  cases h : truthy a <;> simp [h]

@[simp]
theorem truthy_jsOr (a b : JSVal) :
    truthy (jsOr a b) = (truthy a || truthy b) := by
  unfold jsOr
  cases h : truthy a <;> simp [h]

theorem jsAnd_of_truthy (a b : JSVal) (h : truthy a = true) : jsAnd a b = b := by
  simp [jsAnd, h]

theorem jsAnd_of_falsy (a b : JSVal) (h : truthy a = false) : jsAnd a b = a := by
  simp [jsAnd, h]

theorem truthy_num_natCast (n : Nat) : truthy (.num (n : Int)) = decide (0 < n) := by
  cases n with
  | zero => rfl
  | succ m =>
    have h : ¬ ((m : Int) + 1 = 0) := by omega
    simp [truthy, h]

/-! ## Object spread -/

theorem lookup_cons_eq (a j : String) (b : JSVal) (l : JSObj) :
    List.lookup j ((a, b) :: l) = if j = a then some b else List.lookup j l := by
  by_cases h : j = a
  · subst h
    simp [List.lookup]
  · have hb : (j == a) = false := by simpa using h
    simp [List.lookup, hb, h]

theorem lookup_setProp (o : JSObj) (k j : String) (v : JSVal) :
    (setProp o k v).lookup j = if j = k then some v else o.lookup j := by
  induction o with
  | nil => simp [setProp, lookup_cons_eq]
  | cons hd tl ih =>
    obtain ⟨k2, v2⟩ := hd
    unfold setProp
    by_cases h1 : k2 = k
    · subst h1
      simp only [if_true, lookup_cons_eq]
      by_cases h : j = k2 <;> simp [h]
    · by_cases h2 : keyBefore k k2 = true
      · simp [lookup_cons_eq, h1, h2]
      · rw [if_neg h1, if_neg h2, lookup_cons_eq, lookup_cons_eq, ih]
        by_cases h : j = k2
        · have h3 : ¬ k2 = k := h1
          simp [h, h3]
        · simp [h]

theorem lookup_isSome_iff_mem_keys (o : JSObj) (j : String) :
    (o.lookup j).isSome = true ↔ j ∈ o.keys := by
  induction o with
  | nil => simp [JSObj.keys]
  | cons hd tl ih =>
    obtain ⟨a, b⟩ := hd
    rw [lookup_cons_eq]
    by_cases h : j = a
    · simp [h, JSObj.keys]
    · simp only [h, if_false, ih]
      simp [JSObj.keys, h]

theorem some_get_of_mem_keys (o : JSObj) (k : String) (h : k ∈ o.keys) :
    some (o.get k) = o.lookup k := by
  have h1 := (lookup_isSome_iff_mem_keys o k).mpr h
  unfold JSObj.get
  cases hk : List.lookup k o with
  | none => simp [hk] at h1
  | some v => rfl

theorem lookup_foldl_setProp (src : JSObj) (j : String) (ks : List String) :
    ∀ t : JSObj, (∀ k ∈ ks, k ∈ src.keys) →
      (ks.foldl (fun t k => setProp t k (src.get k)) t).lookup j =
        if j ∈ ks then src.lookup j else t.lookup j := by
  induction ks with
  | nil => intro t _; simp
  | cons k ks ih =>
    intro t hks
    have hk : k ∈ src.keys := hks k (List.mem_cons_self k ks)
    have hrest : ∀ x ∈ ks, x ∈ src.keys := fun x hx => hks x (List.mem_cons_of_mem k hx)
    rw [List.foldl_cons, ih _ hrest, lookup_setProp]
    by_cases h1 : j ∈ ks
    · simp [h1]
    · by_cases h2 : j = k
      · subst h2
        simp [h1, some_get_of_mem_keys src j hk]
      · simp [h1, h2]

theorem lookup_spreadInto (t src : JSObj) (j : String) :
    (spreadInto t src).lookup j =
      match src.lookup j with
      | some v => some v
      | none => t.lookup j := by
  unfold spreadInto
  rw [lookup_foldl_setProp src j src.keys t (fun _ h => h)]
  by_cases h : j ∈ src.keys
  · have h1 := (lookup_isSome_iff_mem_keys src j).mpr h
    cases hk : List.lookup j src with
    | none => simp [hk] at h1
    | some v => simp [h]
  · have h1 : ¬ (List.lookup j src).isSome = true :=
      fun e => h ((lookup_isSome_iff_mem_keys src j).mp e)
    cases hk : List.lookup j src with
    | none => simp [h]
    | some v => simp [hk] at h1

theorem lookup_merge (prev cur : JSObj) (j : String) :
    (spreadInto (spreadInto [] prev) cur).lookup j =
      match cur.lookup j with
      | some v => some v
      | none => prev.lookup j := by
  rw [lookup_spreadInto, lookup_spreadInto]
  cases cur.lookup j with
  | some v => rfl
  | none =>
    cases prev.lookup j with
    | some v => rfl
    | none => rfl

theorem lastBinding_nil (init : JSObj) (k : String) :
    lastBinding init [] k = init.lookup k := rfl

theorem lastBinding_append_singleton (init : JSObj) (calls : List JSObj) (c : JSObj)
    (k : String) :
    lastBinding init (calls ++ [c]) k =
      match c.lookup k with
      | some v => some v
      | none => lastBinding init calls k := by
  unfold lastBinding
  rw [List.reverse_append, List.reverse_singleton, List.singleton_append, List.find?_cons]
  cases hk : List.lookup k c with
  | some v => simp [hk]
  | none => simp [hk]

theorem lookup_foldl_merge (init : JSObj) (calls : List JSObj) (k : String) :
    (calls.foldl (fun prevTouched cur => spreadInto (spreadInto [] prevTouched) cur)
      init).lookup k = lastBinding init calls k := by
  induction calls using List.reverseRecOn with
  | nil => rfl
  | append_singleton cs c ih =>
    rw [List.foldl_append, List.foldl_cons, List.foldl_nil, lookup_merge,
      lastBinding_append_singleton, ih]

/-- C1. In a controlled widget (drop or layer truthy), after any sequence of
`onTouched` calls the touched map is the right-biased union of the initial
map and the maps of the calls: each key is bound as in the last call that
binds it, or as before when no call binds it; and a single call leaves the
keys it does not mention as they were. -/
theorem touched_is_right_biased_union (drop layer : JSVal) (init : JSObj)
    (calls : List JSObj) (h : truthy (controlled drop layer) = true) :
    (∀ k, (touchAll (controlled drop layer) init calls).lookup k
        = lastBinding init calls k) ∧
    (∀ cur k, cur.lookup k = none →
      (touchAll (controlled drop layer) init [cur]).lookup k = init.lookup k) := by
  have hfold : ∀ (t : JSObj) (cs : List JSObj) (k : String),
      (touchAll (controlled drop layer) t cs).lookup k = lastBinding t cs k := by
    intro t cs k
    simp only [touchAll, onTouched, h, if_true]
    exact lookup_foldl_merge t cs k
  refine ⟨hfold init calls, ?_⟩
  intro cur k hk
  rw [hfold init [cur] k]
  have := lastBinding_append_singleton init [] cur k
  simp only [List.nil_append] at this
  rw [this, hk, lastBinding_nil]

theorem touched_is_right_biased_union_witness :
    truthy (controlled (.bool true) .undefined) = true ∧
    (∀ k, (touchAll (controlled (.bool true) .undefined) [("a", .num 1)]
        [[("b", .str "x")], [("a", .num 2)]]).lookup k
        = lastBinding [("a", .num 1)] [[("b", .str "x")], [("a", .num 2)]] k) :=
  ⟨by decide,
   (touched_is_right_biased_union (.bool true) .undefined [("a", .num 1)]
      [[("b", .str "x")], [("a", .num 2)]] (by decide)).1⟩

/-! ## Key order -/

theorem keyBefore_trans (a b c : String) (hab : keyBefore a b = true)
    (hbc : keyBefore b c = true) : keyBefore a c = true := by
  unfold keyBefore at *
  cases ha : arrayIndex? a with
  | none => simp [ha] at hab
  | some i =>
    cases hb : arrayIndex? b with
    | none => simp [hb] at hbc
    | some j =>
      cases hc : arrayIndex? c with
      | none => rfl
      | some l =>
        simp only [ha, hb, hc, decide_eq_true_eq] at hab hbc ⊢
        omega

theorem mem_setProp (o : JSObj) (k : String) (v : JSVal) (x : String × JSVal)
    (hx : x ∈ setProp o k v) : x ∈ o ∨ x = (k, v) := by
  induction o with
  | nil =>
    right
    simpa [setProp] using hx
  | cons hd tl ih =>
    obtain ⟨k2, v2⟩ := hd
    unfold setProp at hx
    by_cases h1 : k2 = k
    · rw [if_pos h1] at hx
      rcases List.mem_cons.mp hx with h | h
      · exact Or.inr h
      · exact Or.inl (List.mem_cons_of_mem _ h)
    · rw [if_neg h1] at hx
      by_cases h2 : keyBefore k k2 = true
      · rw [if_pos h2] at hx
        rcases List.mem_cons.mp hx with h | h
        · exact Or.inr h
        · exact Or.inl h
      · rw [if_neg h2] at hx
        rcases List.mem_cons.mp hx with h | h
        · exact Or.inl (h ▸ List.mem_cons_self _ _)
        · rcases ih h with h3 | h3
          · exact Or.inl (List.mem_cons_of_mem _ h3)
          · exact Or.inr h3

theorem keyOrdered_setProp (o : JSObj) (k : String) (v : JSVal) (h : KeyOrdered o) :
    KeyOrdered (setProp o k v) := by
  induction o with
  | nil => simp [setProp, KeyOrdered]
  | cons hd tl ih =>
    obtain ⟨k2, v2⟩ := hd
    have hhd : ∀ x ∈ tl, k2 ≠ x.1 ∧ keyBefore x.1 k2 = false := (List.pairwise_cons.mp h).1
    have htl : KeyOrdered tl := (List.pairwise_cons.mp h).2
    unfold setProp
    by_cases h1 : k2 = k
    · rw [if_pos h1]
      subst h1
      exact List.pairwise_cons.mpr ⟨hhd, htl⟩
    · rw [if_neg h1]
      by_cases h2 : keyBefore k k2 = true
      · rw [if_pos h2]
        refine List.pairwise_cons.mpr ⟨?_, h⟩
        intro x hx
        rcases List.mem_cons.mp hx with hx1 | hx1
        · subst hx1
          refine ⟨fun e => h1 e.symm, ?_⟩
          cases hb : keyBefore k2 k with
          | false => rfl
          | true =>
            have hkk := keyBefore_trans k k2 k h2 hb
            unfold keyBefore at hkk
            cases hi : arrayIndex? k with
            | none => simp [hi] at hkk
            | some i => simp [hi] at hkk
        · have hx2 := hhd x hx1
          constructor
          · intro e
            rw [← e, h2] at hx2
            cases hx2.2
          · cases hb : keyBefore x.1 k with
            | false => rfl
            | true =>
              have := keyBefore_trans x.1 k k2 hb h2
              rw [hx2.2] at this
              cases this
      · rw [if_neg h2]
        have h2f : keyBefore k k2 = false := by simpa using h2
        refine List.pairwise_cons.mpr ⟨?_, ih htl⟩
        intro x hx
        rcases mem_setProp tl k v x hx with hx1 | hx1
        · exact hhd x hx1
        · subst hx1
          exact ⟨h1, h2f⟩

theorem keyOrdered_foldl_setProp (src : JSObj) (ks : List String) :
    ∀ t : JSObj, KeyOrdered t →
      KeyOrdered (ks.foldl (fun t k => setProp t k (src.get k)) t) := by
  induction ks with
  | nil => intro t h; exact h
  | cons k ks ih =>
    intro t h
    exact ih _ (keyOrdered_setProp t k (src.get k) h)

theorem keyOrdered_spreadInto (t src : JSObj) (h : KeyOrdered t) :
    KeyOrdered (spreadInto t src) :=
  keyOrdered_foldl_setProp src src.keys t h

theorem nodup_keys_of_keyOrdered (o : JSObj) (h : KeyOrdered o) : o.keys.Nodup := by
  unfold JSObj.keys List.Nodup
  rw [List.pairwise_map]
  exact List.Pairwise.imp (fun hab => hab.1) h

/-- The touched map of every reachable state is in key order; in particular
its keys are distinct. -/
theorem reachable_touched_keyOrdered (p : Props) (s : State) (hr : Reachable p s) :
    KeyOrdered s.touched := by
  induction hr with
  | mount => exact List.Pairwise.nil
  | event s cs e _ _ ih =>
    cases e with
    | formTouched cur =>
      unfold Event.apply onTouched
      by_cases hc : truthy (controlled p.drop p.layer) = true
      · simp only [hc, if_true]
        exact keyOrdered_spreadInto _ _ (keyOrdered_spreadInto _ _ List.Pairwise.nil)
      · simp only [hc, if_false]
        exact ih
    | _ => exact ih
  | cleared s fc _ ih =>
    unfold resetOnCleared
    by_cases hc : truthy fc = true
    · simp only [hc, if_true]
      exact List.Pairwise.nil
    · simp only [hc, if_false]
      exact ih

theorem reachable_touched_keys_nodup (p : Props) (s : State) (hr : Reachable p s) :
    s.touched.keys.Nodup :=
  nodup_keys_of_keyOrdered _ (reachable_touched_keyOrdered p s hr)

/-! ## Badge -/

theorem lookup_of_mem_of_nodup (o : JSObj) (hnd : o.keys.Nodup) :
    ∀ kv ∈ o, o.lookup kv.1 = some kv.2 := by
  induction o with
  | nil => intro kv h; cases h
  | cons hd tl ih =>
    obtain ⟨a, b⟩ := hd
    have hnd2 : a ∉ JSObj.keys tl ∧ (JSObj.keys tl).Nodup := by
      simpa [JSObj.keys] using hnd
    intro kv hkv
    rw [lookup_cons_eq]
    rcases List.mem_cons.mp hkv with h | h
    · subst h
      simp
    · have hne : ¬ kv.1 = a := by
        intro e
        apply hnd2.1
        rw [← e]
        exact List.mem_map_of_mem Prod.fst h
      simp only [hne, if_false]
      exact ih hnd2.2 kv h

theorem keys_filter_length (o : JSObj) (hnd : o.keys.Nodup) :
    (o.keys.filter (fun k => truthy (o.get k))).length = truthyCount o := by
  unfold JSObj.keys truthyCount
  rw [List.filter_map, List.length_map]
  congr 1
  apply List.filter_congr
  intro kv hkv
  simp only [Function.comp, JSObj.get, lookup_of_mem_of_nodup o hnd kv hkv]

theorem badge_of_count (ctl : JSVal) (touched : JSObj) :
    badge ctl touched =
      if truthy ctl = true ∧
          0 < (touched.keys.filter (fun k => truthy (touched.get k))).length
      then .num (touched.keys.filter (fun k => truthy (touched.get k))).length
      else .undefined := by
  unfold badge
  generalize (touched.keys.filter (fun k => truthy (touched.get k))).length = n
  by_cases hc : truthy ctl = true
  · have h1 : jsAnd ctl (.num (n : Int)) = .num (n : Int) := by
      simp [jsAnd, hc]
    rw [h1]
    by_cases hn : 0 < n
    · have h2 : truthy (.num (n : Int)) = true := by
        rw [truthy_num_natCast]
        exact decide_eq_true hn
      simp [jsOr, h2, hc, hn]
    · have h2 : truthy (.num (n : Int)) = false := by
        rw [truthy_num_natCast]
        exact decide_eq_false hn
      simp [jsOr, h2, hn]
  · have hc2 : truthy ctl = false := by simpa using hc
    have h1 : jsAnd ctl (.num (n : Int)) = ctl := by
      simp [jsAnd, hc2]
    rw [h1]
    simp [jsOr, hc2]

theorem truthy_controlled (drop layer : JSVal) :
    truthy (controlled drop layer) = (truthy drop || truthy layer) := by
  unfold controlled
  exact truthy_jsOr drop layer

/-- C2. For every touched map (an object, so with distinct keys) and every
configuration, the badge is the number of keys whose value is truthy when
`drop` or `layer` is truthy and that number is positive, and `undefined`
when the number is zero or when neither `drop` nor `layer` is truthy (the
widget is inline). -/
theorem badge_counts_truthy_keys (drop layer : JSVal) (touched : JSObj)
    (hnd : touched.keys.Nodup) :
    ((truthy drop = true ∨ truthy layer = true) ∧ 0 < truthyCount touched →
      badge (controlled drop layer) touched = .num (truthyCount touched)) ∧
    (truthyCount touched = 0 ∨ (truthy drop = false ∧ truthy layer = false) →
      badge (controlled drop layer) touched = .undefined) := by
  rw [badge_of_count, keys_filter_length touched hnd, truthy_controlled]
  constructor
  · rintro ⟨h1, h2⟩
    rw [if_pos]
    refine ⟨?_, h2⟩
    rcases h1 with h | h
    · simp [h]
    · simp [h]
  · intro h
    rw [if_neg]
    rintro ⟨h1, h2⟩
    rcases h with h | ⟨hd, hl⟩
    · omega
    · rw [hd, hl] at h1
      cases h1

theorem badge_counts_truthy_keys_witness :
    (JSObj.keys [("a", .str "x"), ("b", .str ""), ("c", .num 3)]).Nodup ∧
    badge (controlled .undefined (.bool true))
      [("a", .str "x"), ("b", .str ""), ("c", .num 3)] = .num 2 ∧
    badge (controlled .undefined .undefined)
      [("a", .str "x"), ("b", .str ""), ("c", .num 3)] = .undefined :=
  ⟨by decide,
   (badge_counts_truthy_keys .undefined (.bool true)
      [("a", .str "x"), ("b", .str ""), ("c", .num 3)] (by decide)).1
      ⟨Or.inr rfl, by decide⟩,
   (badge_counts_truthy_keys .undefined .undefined
      [("a", .str "x"), ("b", .str ""), ("c", .num 3)] (by decide)).2
      (Or.inr ⟨rfl, rfl⟩)⟩

/-! ## Filter target list -/

theorem typeOf_ne_object (v : JSVal) : (typeOf v != "object") = notTypeofObject v := by
  cases v <;> simp [typeOf, notTypeofObject]

theorem filter_member_eq (config : JSVal) :
    strictEqFalse (optMember config "filter") = disablesFilter config := by
  have hidx : arrayIndex? "filter" = none := by decide
  cases config with
  | undefined => rfl
  | null => rfl
  | bool b => rfl
  | num n => rfl
  | nan => rfl
  | str s => simp [optMember, memberOf, hidx, strictEqFalse, disablesFilter]
  | arr items => simp [optMember, memberOf, hidx, strictEqFalse, disablesFilter]
  | func a => simp [optMember, memberOf, strictEqFalse, disablesFilter]
  | obj config =>
    simp only [optMember, memberOf, JSObj.get, disablesFilter]
    cases h : List.lookup "filter" config with
    | none => rfl
    | some v =>
      cases v with
      | bool b => cases b <;> rfl
      | _ => rfl

theorem filtersFor_of_sample (properties : JSVal) (record : JSObj) (rest : List JSVal)
    (h : truthy properties = false) :
    filtersFor properties (.arr (.obj record :: rest)) =
      .ok (keysWhere record (fun v => typeOf v != "object")) := by
  have hidx : arrayIndex? "length" = none := by decide
  have h0 : arrayIndex? "0" = some 0 := by decide
  have hlen : truthy (memberOf (.arr (.obj record :: rest)) "length") = true := by
    simp only [memberOf, hidx]
    have := truthy_num_natCast (JSVal.obj record :: rest).length
    simpa using this
  have hcond : truthy (jsAnd (jsAnd (jsNot properties) (.arr (.obj record :: rest)))
      (memberOf (.arr (.obj record :: rest)) "length")) = true := by
    simp [h, hlen]
  have hfirst : memberOf (.arr (.obj record :: rest)) "0" = .obj record := by
    simp [memberOf, h0]
  unfold filtersFor
  rw [if_pos hcond]
  simp only [hfirst, objectKeys, memberOf, keysWhere, JSObj.keys]
  rfl

/-- C3 (as the code has it). With a falsy properties descriptor and a
non-empty dataset sample whose first record is an object, the filter target
list is the keys of that record, in key order, whose value has a `typeof`
other than `'object'`: numbers, strings, booleans, undefined and functions
are kept; null, nested objects and arrays are left out. -/
theorem sample_keys_kept_by_typeof (properties : JSVal) (record : JSObj)
    (rest : List JSVal) (h : truthy properties = false) :
    filtersFor properties (.arr (.obj record :: rest)) =
      .ok (keysWhere record notTypeofObject) := by
  rw [filtersFor_of_sample properties record rest h]
  have : (fun v => typeOf v != "object") = notTypeofObject := funext typeOf_ne_object
  rw [this]

theorem sample_keys_kept_by_typeof_witness :
    truthy .undefined = false ∧
    filtersFor .undefined
        (.arr [.obj [("a", .num 1), ("b", .obj [("x", .num 1)]), ("c", .str "s")]]) =
      .ok [.str "a", .str "c"] :=
  ⟨rfl,
   (sample_keys_kept_by_typeof .undefined
      [("a", .num 1), ("b", .obj [("x", .num 1)]), ("c", .str "s")] [] rfl).trans rfl⟩

/-- C3 as stated fails: on the sample `[{a: null}]` the code derives the
empty list although `null` is one of the listed scalars. -/
theorem null_valued_key_is_left_out :
    filtersFor .undefined (.arr [.obj [("a", .null)]]) = .ok [] ∧
    keysWhere [("a", .null)] listedScalar = [.str "a"] ∧
    ¬ (filtersFor .undefined (.arr [.obj [("a", .null)]]) =
        .ok (keysWhere [("a", .null)] listedScalar)) := by
  have h1 : filtersFor .undefined (.arr [.obj [("a", .null)]]) = .ok [] :=
    (filtersFor_of_sample .undefined [("a", .null)] [] rfl).trans rfl
  have h2 : keysWhere [("a", .null)] listedScalar = [.str "a"] := rfl
  refine ⟨h1, h2, ?_⟩
  rw [h1, h2]
  intro h
  cases h

theorem filtersFor_of_array (items : List JSVal) (data : JSVal) :
    filtersFor (.arr items) data = .ok items := by
  have hcond : truthy (jsAnd (jsAnd (jsNot (.arr items)) data) (memberOf data "length"))
      = false := by simp
  unfold filtersFor
  rw [hcond]
  rfl

theorem filtersFor_of_mapping (props : JSObj) (data : JSVal) :
    filtersFor (.obj props) data = .ok (keysWhere props (fun c => !disablesFilter c)) := by
  have hcond : truthy (jsAnd (jsAnd (jsNot (.obj props)) data) (memberOf data "length"))
      = false := by simp
  have hty : (typeOf (.obj props) == "object") = true := by
    simp [typeOf]
  have hpred : (fun property =>
      !(strictEqFalse (optMember (memberOf (.obj props) property) "filter"))) =
      (fun k => !disablesFilter (JSObj.get props k)) := by
    funext k
    rw [filter_member_eq]
    rfl
  unfold filtersFor
  rw [hcond]
  simp only [Bool.false_eq_true, if_false, isArray, hty, if_true, hpred]
  rfl

/-- C4. With a properties descriptor given, the filter target list does not
depend on the dataset sample: a list is used verbatim, a mapping yields, in
key order, the keys whose config does not have `filter === false`. -/
theorem filtersFor_depends_on_descriptor_only :
    (∀ items data, filtersFor (.arr items) data = .ok items) ∧
    (∀ props data, filtersFor (.obj props) data =
      .ok (keysWhere props (fun config => !disablesFilter config))) ∧
    (∀ data, filtersFor (.arr [.str "a", .str "b"]) data = .ok [.str "a", .str "b"]) ∧
    (∀ data, filtersFor
        (.obj [("a", .obj []), ("b", .obj [("filter", .bool false)]), ("c", .undefined)])
        data = .ok [.str "a", .str "c"]) :=
  ⟨filtersFor_of_array, filtersFor_of_mapping,
   fun data => filtersFor_of_array _ data,
   fun data => (filtersFor_of_mapping _ data).trans rfl⟩

/-- C9, the failing input. With `properties` null and no dataset sample, or
an empty one, the derivation reaches `Object.keys(null)` and raises instead
of returning the empty list. -/
theorem filtersFor_null_properties_raises :
    filtersFor .null .undefined = .error .typeError ∧
    filtersFor .null (.arr []) = .error .typeError :=
  ⟨rfl, rfl⟩

/-- With `properties` undefined and the sample missing or empty the list is
empty. -/
theorem filtersFor_undefined_properties :
    filtersFor .undefined .undefined = .ok [] ∧
    filtersFor .undefined (.arr []) = .ok [] :=
  ⟨rfl, rfl⟩

/-- In a mapping, a key whose config is not a plain object is kept. -/
theorem non_object_config_is_filterable (config : JSVal)
    (h : ∀ c, config ≠ .obj c) : disablesFilter config = false := by
  cases config with
  | obj c => exact absurd rfl (h c)
  | _ => rfl

theorem filtersFor_of_other (properties data : JSVal)
    (hc : (!truthy properties && truthy data && truthy (memberOf data "length")) = false)
    (ha : isArray properties = false)
    (ht : (typeOf properties == "object") = false) :
    filtersFor properties data = .ok [] := by
  have hcond : truthy (jsAnd (jsAnd (jsNot properties) data) (memberOf data "length"))
      = false := by
    rw [truthy_jsAnd, truthy_jsAnd, truthy_jsNot]
    exact hc
  unfold filtersFor
  rw [hcond, ha, ht]
  rfl

theorem filtersFor_returns_of_not_object (properties data : JSVal)
    (ha : isArray properties = false)
    (ht : (typeOf properties == "object") = false)
    (hd : data = .undefined ∨ data = .arr [] ∨
      ∃ record rest, data = .arr (.obj record :: rest)) :
    ∃ fs, filtersFor properties data = .ok fs := by
  have hlen : arrayIndex? "length" = none := by decide
  rcases hd with hd | hd | ⟨record, rest, hd⟩
  · subst hd
    exact ⟨[], filtersFor_of_other _ _ (by simp) ha ht⟩
  · subst hd
    refine ⟨[], filtersFor_of_other _ _ ?_ ha ht⟩
    have h0 : truthy (memberOf (.arr []) "length") = false := by
      simp only [memberOf, hlen]
      rfl
    simp [h0]
  · subst hd
    by_cases hp : truthy properties = true
    · exact ⟨[], filtersFor_of_other _ _ (by simp [hp]) ha ht⟩
    · have hp2 : truthy properties = false := by simpa using hp
      exact ⟨_, filtersFor_of_sample properties record rest hp2⟩

/-- The derivation returns a list for every properties descriptor other than
`null`, when the dataset sample is missing, empty or starts with an object. -/
theorem filtersFor_returns_list (properties data : JSVal) (hp : properties ≠ .null)
    (hd : data = .undefined ∨ data = .arr [] ∨
      ∃ record rest, data = .arr (.obj record :: rest)) :
    ∃ fs, filtersFor properties data = .ok fs := by
  cases properties with
  | null => exact absurd rfl hp
  | arr items => exact ⟨_, filtersFor_of_array items data⟩
  | obj props => exact ⟨_, filtersFor_of_mapping props data⟩
  | undefined => exact filtersFor_returns_of_not_object _ _ rfl (by simp [typeOf]) hd
  | bool b => exact filtersFor_returns_of_not_object _ _ rfl (by simp [typeOf]) hd
  | num n => exact filtersFor_returns_of_not_object _ _ rfl (by simp [typeOf]) hd
  | nan => exact filtersFor_returns_of_not_object _ _ rfl (by simp [typeOf]) hd
  | str s => exact filtersFor_returns_of_not_object _ _ rfl (by simp [typeOf]) hd
  | func a => exact filtersFor_returns_of_not_object _ _ rfl (by simp [typeOf]) hd

/-- With `properties` null the derivation still returns a list when the
sample starts with an object. -/
theorem filtersFor_null_with_sample (record : JSObj) (rest : List JSVal) :
    ∃ fs, filtersFor .null (.arr (.obj record :: rest)) = .ok fs :=
  ⟨_, filtersFor_of_sample .null record rest rfl⟩

/-! ## Derived content -/

theorem content_of_filtersFor_ok (properties data view : JSVal) (fs : List JSVal)
    (h : filtersFor properties data = .ok fs) :
    content [] properties data view =
      .ok (if sortEnabled view = true then fs.map editorFor ++ [sortEntry]
        else fs.map editorFor) := by
  unfold content
  simp only [List.length_nil, if_true, h]
  by_cases hs : sortEnabled view = true
  · have hs2 : truthy (optMember view "sort") = true := hs
    rw [if_pos hs]
    show (if truthy (optMember view "sort") = true then _ else _) = _
    rw [if_pos hs2]
    rfl
  · have hs2 : ¬ truthy (optMember view "sort") = true := hs
    rw [if_neg hs]
    show (if truthy (optMember view "sort") = true then _ else _) = _
    rw [if_neg hs2]
    rfl

theorem content_of_filtersFor_error (properties data view : JSVal) (err : JSError)
    (h : filtersFor properties data = .error err) :
    content [] properties data view = .error err := by
  unfold content
  simp only [List.length_nil, if_true, h]
  rfl

/-- C5 (as the code has it). With no children, for every properties
descriptor and dataset sample on which the derivation of the filter target
list returns a list `fs`: when sorting is enabled the content is one filter
editor per target field, in list order, followed by the sort entry, which is
its last element and its only sort entry; when sorting is not enabled the
content is the editors alone and holds no sort entry. -/
theorem derived_content_ends_with_sort_entry (properties data view : JSVal)
    (fs : List JSVal) (h : filtersFor properties data = .ok fs) :
    (sortEnabled view = true →
      content [] properties data view = .ok (fs.map editorFor ++ [sortEntry]) ∧
      (fs.map editorFor ++ [sortEntry]).getLast? = some sortEntry) ∧
    (sortEnabled view = false →
      content [] properties data view = .ok (fs.map editorFor)) ∧
    (∀ e ∈ fs.map editorFor, e.isFilter = true ∧ e.isSort = false) ∧
    sortEntry.isSort = true := by
  refine ⟨?_, ?_, ?_, rfl⟩
  · intro hs
    refine ⟨?_, by simp⟩
    rw [content_of_filtersFor_ok properties data view fs h, if_pos hs]
  · intro hs
    rw [content_of_filtersFor_ok properties data view fs h, hs]
    rfl
  · intro e he
    obtain ⟨f, _, rfl⟩ := List.mem_map.mp he
    exact ⟨rfl, rfl⟩

theorem derived_content_ends_with_sort_entry_witness :
    filtersFor (.arr [.str "a", .str "b"]) .undefined = .ok [.str "a", .str "b"] ∧
    content [] (.arr [.str "a", .str "b"]) .undefined (.obj [("sort", .bool true)]) =
      .ok [editorFor (.str "a"), editorFor (.str "b"), sortEntry] :=
  ⟨rfl,
   ((derived_content_ends_with_sort_entry (.arr [.str "a", .str "b"]) .undefined
      (.obj [("sort", .bool true)]) [.str "a", .str "b"] rfl).1 rfl).1⟩

/-- C5 as stated fails: with `properties` null, no dataset sample and
sorting enabled, the derivation raises before the sort entry is pushed, so
there is no content and in particular none ending with the sort entry. -/
theorem no_content_when_derivation_raises :
    sortEnabled (.obj [("sort", .bool true)]) = true ∧
    content [] .null .undefined (.obj [("sort", .bool true)]) = .error .typeError ∧
    ¬ (∀ properties data view : JSVal, sortEnabled view = true →
        ∃ fs : List JSVal,
          content [] properties data view = .ok (fs.map editorFor ++ [sortEntry])) := by
  have hs : sortEnabled (.obj [("sort", .bool true)]) = true := rfl
  have hc : content [] .null .undefined (.obj [("sort", .bool true)]) = .error .typeError :=
    content_of_filtersFor_error .null .undefined _ .typeError rfl
  refine ⟨hs, hc, ?_⟩
  intro hall
  obtain ⟨fs, hfs⟩ := hall .null .undefined (.obj [("sort", .bool true)]) hs
  rw [hc] at hfs
  cases hfs

/-! ## Effects -/

/-- C6. The value pushed through `setFiltersCleared` is `true` exactly when
the touched map has no keys, and `false` when it has at least one. -/
theorem cleared_flag_iff_no_keys (touched : JSObj) :
    (filtersClearedPush touched = .bool true ↔ touched.keys = []) ∧
    (touched.keys ≠ [] → filtersClearedPush touched = .bool false) ∧
    (touched.keys = [] ↔ touched = []) ∧
    filtersClearedPush defaultTouched = .bool true := by
  have hpush : filtersClearedPush touched = .bool (!decide (0 < touched.keys.length)) := by
    unfold filtersClearedPush jsNot
    rw [truthy_num_natCast]
  refine ⟨?_, ?_, ?_, rfl⟩
  · rw [hpush]
    cases hk : touched.keys with
    | nil => simp
    | cons a l => simp
  · intro hne
    rw [hpush]
    cases hk : touched.keys with
    | nil => exact absurd hk hne
    | cons a l => simp
  · cases touched with
    | nil => simp [JSObj.keys]
    | cons a l => simp [JSObj.keys]

/-- C7. When the context reports `filtersCleared = true` the reset effect
leaves the empty map whatever the touched map held, so the badge is
undefined; when `filtersCleared` is falsy the effect leaves the touched map
as it was. -/
theorem reset_effect_clears_touched (touched : JSObj) (ctl : JSVal) :
    resetOnCleared (.bool true) touched = [] ∧
    badge ctl (resetOnCleared (.bool true) touched) = .undefined ∧
    resetOnCleared (.bool false) touched = touched ∧
    (∀ filtersCleared, truthy filtersCleared = true →
      resetOnCleared filtersCleared touched = []) ∧
    (∀ filtersCleared, truthy filtersCleared = false →
      resetOnCleared filtersCleared touched = touched) := by
  refine ⟨rfl, ?_, rfl, ?_, ?_⟩
  · show badge ctl [] = .undefined
    rw [badge_of_count]
    simp [JSObj.keys]
  · intro fc h
    simp [resetOnCleared, h, defaultTouched]
  · intro fc h
    simp [resetOnCleared, h]

/-! ## Presentation -/

theorem andSlot_of_falsy {α : Type} (a : JSVal) (b : Slot α) (h : truthy a = false) :
    andSlot a b = .value a := by
  simp [andSlot, h]

theorem andSlot_of_truthy {α : Type} (a : JSVal) (b : Slot α) (h : truthy a = true) :
    andSlot a b = b := by
  simp [andSlot, h]

theorem render_of_drop (p : Props) (s : State) (cs : List Element)
    (hd : truthy p.drop = true) :
    render p s cs =
      .box (some (.dropButton (badge (controlled p.drop p.layer) s.touched) s.showContent
          (dataForm p s.touched cs)))
        (clearControl (badge (controlled p.drop p.layer) s.touched) (clearFiltersOf p))
        (andSlot (jsAnd p.layer s.showContent) (.element (dataForm p s.touched cs))) := by
  have hc : truthy (controlled p.drop p.layer) = true := by
    simp [controlled, hd]
  unfold render
  simp only [hc, hd, Bool.not_true, Bool.false_eq_true, if_false, if_true]

theorem render_of_layer_only (p : Props) (s : State) (cs : List Element)
    (hd : truthy p.drop = false) (hl : truthy p.layer = true) :
    render p s cs =
      .box (some (.button (badge (controlled p.drop p.layer) s.touched)))
        (clearControl (badge (controlled p.drop p.layer) s.touched) (clearFiltersOf p))
        (andSlot (jsAnd p.layer s.showContent) (.element (dataForm p s.touched cs))) := by
  have hc : truthy (controlled p.drop p.layer) = true := by
    simp [controlled, hd, hl]
  unfold render
  simp only [hc, hd, hl, Bool.not_true, Bool.false_eq_true, if_false, if_true]

theorem showContent_falsy_of_drop (p : Props) (s : State)
    (hd : truthy p.drop = true) (hr : Reachable p s) : truthy s.showContent = false := by
  induction hr with
  | mount => rfl
  | event s cs e _ hoff ih =>
    cases e with
    | formDone => rfl
    | formTouched cur =>
      unfold Event.apply
      cases onTouched (controlled p.drop p.layer) with
      | none => exact ih
      | some handler => exact ih
    | headerClose => rfl
    | dropOpen => rfl
    | dropClose => rfl
    | layerClickOutside => rfl
    | layerEsc => rfl
    | triggerClick =>
      exfalso
      have hslot : truthy (jsAnd p.layer s.showContent) = false := by
        simp [ih]
      rw [render_of_drop p s cs hd, andSlot_of_falsy _ _ hslot] at hoff
      simp [Rendered.offers, FormView.offers] at hoff
  | cleared s fc _ ih => exact ih

theorem header_isElement_of_layer (p : Props) (touched : JSObj) (cs : List Element)
    (hl : truthy p.layer = true) : (dataForm p touched cs).header.isElement = true := by
  unfold dataForm
  simp only [andSlot_of_truthy _ _ hl]
  rfl

theorem headerHasClear_of_layer (p : Props) (touched : JSObj) (cs : List Element)
    (hl : truthy p.layer = true) : (dataForm p touched cs).headerHasClear = false := by
  have hc : truthy (jsNot (controlled p.drop p.layer)) = false := by
    simp [controlled, hl]
  unfold FormView.headerHasClear dataForm
  simp only [andSlot_of_truthy _ _ hl, andSlot_of_falsy _ _ hc]
  rfl

theorem truthy_badge_iff (ctl : JSVal) (touched : JSObj) :
    truthy (badge ctl touched) = true ↔ positiveBadge (badge ctl touched) := by
  rw [badge_of_count]
  by_cases h : truthy ctl = true ∧
      0 < (touched.keys.filter (fun k => truthy (touched.get k))).length
  · rw [if_pos h, truthy_num_natCast]
    constructor
    · intro _
      exact ⟨_, h.2, rfl⟩
    · intro _
      exact decide_eq_true h.2
  · rw [if_neg h]
    constructor
    · intro hh
      cases hh
    · rintro ⟨n, _, hn⟩
      cases hn

theorem clearControl_isElement_iff (b clearFilters : JSVal) :
    (clearControl b clearFilters).isElement = true ↔
      truthy b = true ∧ truthy clearFilters = true := by
  unfold clearControl andSlot
  by_cases h : truthy (jsAnd b clearFilters) = true
  · rw [if_pos h]
    simpa [Slot.isElement] using h
  · rw [if_neg h]
    simpa [Slot.isElement] using h

/-- C8 (as the code has it). With both `drop` and `layer` truthy, in every
state reachable from mount the trigger is the `DropButton`, the show-content
state is falsy and the `Layer` slot holds no element; the panel header is
nonetheless rendered inside the form, which is the content of the drop. -/
theorem drop_takes_precedence_over_layer (p : Props) (s : State) (cs : List Element)
    (hd : truthy p.drop = true) (hl : truthy p.layer = true) (hr : Reachable p s) :
    render p s cs =
      .box (some (.dropButton (badge (controlled p.drop p.layer) s.touched) s.showContent
          (dataForm p s.touched cs)))
        (clearControl (badge (controlled p.drop p.layer) s.touched) (clearFiltersOf p))
        (.value s.showContent) ∧
    truthy s.showContent = false ∧
    (dataForm p s.touched cs).header.isElement = true := by
  have hs := showContent_falsy_of_drop p s hd hr
  have hslot : truthy (jsAnd p.layer s.showContent) = false := by
    simp [hs]
  refine ⟨?_, hs, header_isElement_of_layer p s.touched cs hl⟩
  rw [render_of_drop p s cs hd, andSlot_of_falsy _ _ hslot, jsAnd_of_truthy _ _ hl]

theorem drop_takes_precedence_over_layer_witness :
    truthy dropAndLayer.drop = true ∧ truthy dropAndLayer.layer = true ∧
    Reachable dropAndLayer State.initial ∧
    truthy State.initial.showContent = false ∧
    (dataForm dropAndLayer State.initial.touched []).header.isElement = true :=
  ⟨rfl, rfl, Reachable.mount,
   (drop_takes_precedence_over_layer dropAndLayer State.initial [] rfl rfl
      Reachable.mount).2⟩

/-- C8 as stated fails: at mount, with `drop` and `layer` both `true`, the
form handed to the `DropButton` holds the panel header. -/
theorem panel_header_rendered_in_drop :
    Reachable dropAndLayer State.initial ∧
    (render dropAndLayer State.initial []).onlyDropdownShape = false ∧
    ¬ (∀ (p : Props) (s : State) (cs : List Element),
        truthy p.drop = true → truthy p.layer = true → Reachable p s →
        (render p s cs).onlyDropdownShape = true) := by
  have h : (render dropAndLayer State.initial []).onlyDropdownShape = false := rfl
  refine ⟨Reachable.mount, h, ?_⟩
  intro hall
  have h2 := hall dropAndLayer State.initial [] rfl rfl Reachable.mount
  rw [h] at h2
  cases h2

/-- C10 (as the code has it). Whenever `layer` is truthy the panel header is
built and never holds the clear-filters control, because its slot is guarded
by `!controlled`; the clear-filters control next to the trigger is rendered
exactly when the badge shows a positive count and `clearFilters` is truthy. -/
theorem header_never_holds_clear_control (p : Props) (s : State) (cs : List Element)
    (hl : truthy p.layer = true) :
    (dataForm p s.touched cs).header.isElement = true ∧
    (dataForm p s.touched cs).headerHasClear = false ∧
    (∃ control layer, render p s cs =
      .box control
        (clearControl (badge (controlled p.drop p.layer) s.touched) (clearFiltersOf p))
        layer) ∧
    ((clearControl (badge (controlled p.drop p.layer) s.touched)
        (clearFiltersOf p)).isElement = true ↔
      positiveBadge (badge (controlled p.drop p.layer) s.touched) ∧
        truthy (clearFiltersOf p) = true) := by
  refine ⟨header_isElement_of_layer p s.touched cs hl,
    headerHasClear_of_layer p s.touched cs hl, ?_, ?_⟩
  · by_cases hd : truthy p.drop = true
    · exact ⟨_, _, render_of_drop p s cs hd⟩
    · have hd2 : truthy p.drop = false := by simpa using hd
      exact ⟨_, _, render_of_layer_only p s cs hd2 hl⟩
  · rw [clearControl_isElement_iff, truthy_badge_iff]

theorem header_never_holds_clear_control_witness :
    truthy layerOnly.layer = true ∧
    (dataForm layerOnly [("a", .str "x")] []).headerHasClear = false :=
  ⟨rfl,
   (header_never_holds_clear_control layerOnly
      { showContent := .bool true, touched := [("a", .str "x")] } [] rfl).2.1⟩

/-- C10 as stated fails: in layer mode with one touched field holding a
value and `clearFilters` left at its default, the badge is 1 and the clear
control is rendered next to the trigger, yet the header does not hold it. -/
theorem header_lacks_clear_control_with_badge :
    truthy layerOnly.layer = true ∧
    badge (controlled layerOnly.drop layerOnly.layer) [("a", .str "x")] = .num 1 ∧
    truthy (clearFiltersOf layerOnly) = true ∧
    (clearControl (badge (controlled layerOnly.drop layerOnly.layer) [("a", .str "x")])
      (clearFiltersOf layerOnly)).isElement = true ∧
    (dataForm layerOnly [("a", .str "x")] []).headerHasClear = false ∧
    ¬ ((dataForm layerOnly [("a", .str "x")] []).headerHasClear = true ↔
        positiveBadge (badge (controlled layerOnly.drop layerOnly.layer) [("a", .str "x")]) ∧
          truthy (clearFiltersOf layerOnly) = true) := by
  have hb : badge (controlled layerOnly.drop layerOnly.layer) [("a", .str "x")] = .num 1 := rfl
  have hh : (dataForm layerOnly [("a", .str "x")] []).headerHasClear = false := rfl
  refine ⟨rfl, hb, rfl, rfl, hh, ?_⟩
  intro hiff
  have h1 := hiff.mpr ⟨⟨1, by decide, hb⟩, rfl⟩
  rw [hh] at h1
  cases h1

end Grommet
